import Mathlib

/-!
Verification of the wave-superposition core of `sine_wave_superposition.ipynb`.

The notebook's only computational content is inside `plot_wave_superposition`:
a fixed sample grid `x = np.arange(0.05, 4.95, 0.001)` and, per animation
frame `i`, the closure `animate(i)` computing

    p   = -1 if ipw else 1
    wy  = wa * p * np.sin((2 * pi * (wf * 0.01)) * x + 0.17 * i)

for each wave, handing `w1y`, `w2y`, `w1y`, `w2y`, `w1y + w2y` to the five
plot objects `w1, w2, sw1, sw2, rw`, with `frames=200`.

We embed this in real arithmetic: the grid is a `List ℝ`, the per-wave
computation is the function `sample` (the spec's name for the factored-out
per-wave expression), and `animate` returns the five sequences as a record.
-/

namespace SineWave

/-- `np.arange start stop step` for positive step: `⌈(stop - start)/step⌉`
elements, the k-th being `start + step * k`. -/
noncomputable def arange (start stop step : ℝ) : List ℝ :=
  (List.range (⌈(stop - start) / step⌉.toNat)).map (fun (k : ℕ) => start + step * (k : ℝ))

/-- The fixed sample grid: `x = np.arange(0.05, 4.95, 0.001)`. -/
noncomputable def x : List ℝ := arange 0.05 4.95 0.001

/-- The per-wave sampling expression from `animate`:
`wa * p * np.sin((2 * np.pi * (wf * 0.01)) * x + phaseOffset)`
with `p = -1 if invertPolarity else 1`, applied over the grid. -/
noncomputable def sample (amplitude frequencyHz : ℝ) (invertPolarity : Bool)
    (grid : List ℝ) (phaseOffset : ℝ) : List ℝ :=
  grid.map (fun t =>
    amplitude * (if invertPolarity then (-1 : ℝ) else 1) *
      Real.sin ((2 * Real.pi * (frequencyHz * 0.01)) * t + phaseOffset))

/-- The five sequences `animate` hands to the renderer:
`w1, w2, sw1, sw2, rw` (wave 1, wave 2, superposed wave 1,
superposed wave 2, resultant wave). -/
structure FrameData where
  w1 : List ℝ
  w2 : List ℝ
  sw1 : List ℝ
  sw2 : List ℝ
  rw : List ℝ

/-- The frame callback `animate(i)`: both waves are sampled over the same
grid `x` with the same phase offset `0.17 * i`; the resultant is the
elementwise sum `w1y + w2y`. -/
noncomputable def animate (wa1 wf1 wa2 wf2 : ℝ) (ipw1 ipw2 : Bool) (i : ℕ) :
    FrameData :=
  let w1y := sample wa1 wf1 ipw1 x (0.17 * i)
  let w2y := sample wa2 wf2 ipw2 x (0.17 * i)
  { w1 := w1y, w2 := w2y, sw1 := w1y, sw2 := w2y,
    rw := List.zipWith (fun a b => a + b) w1y w2y }

/-- `FuncAnimation(..., frames=200, ...)`. -/
def frames : ℕ := 200

lemma sample_length (A f : ℝ) (p : Bool) (G : List ℝ) (φ : ℝ) :
    (sample A f p G φ).length = G.length := by
  simp [sample]

lemma x_length : x.length = 4900 := by
  have h : ((4.95 : ℝ) - 0.05) / 0.001 = (4900 : ℕ) := by norm_num
  simp only [x, arange, List.length_map, List.length_range, h, Int.ceil_natCast,
    Int.toNat_natCast]

lemma x_get (k : ℕ) (h : k < x.length) :
    x.get ⟨k, h⟩ = 0.05 + 0.001 * k := by
  simp only [x, arange, List.get_eq_getElem, List.getElem_map, List.getElem_range]

lemma animate_w1_length (wa1 wf1 wa2 wf2 : ℝ) (ipw1 ipw2 : Bool) (i : ℕ) :
    (animate wa1 wf1 wa2 wf2 ipw1 ipw2 i).w1.length = x.length := by
  simp [animate, sample_length]

lemma animate_w2_length (wa1 wf1 wa2 wf2 : ℝ) (ipw1 ipw2 : Bool) (i : ℕ) :
    (animate wa1 wf1 wa2 wf2 ipw1 ipw2 i).w2.length = x.length := by
  simp [animate, sample_length]

lemma animate_rw_length (wa1 wf1 wa2 wf2 : ℝ) (ipw1 ipw2 : Bool) (i : ℕ) :
    (animate wa1 wf1 wa2 wf2 ipw1 ipw2 i).rw.length = x.length := by
  simp [animate, List.length_zipWith, sample_length]

/-- C1: for every amplitude `A`, frequency `f`, polarity flag `p`, phase
offset `φ`, and grid point (index `k` of grid `G`), the sampled displacement
equals `A * sign * sin(2π(f·0.01)·t + φ)` with `sign = -1` when the polarity
flag is set and `1` otherwise. -/
theorem C1_sample_formula (A f φ : ℝ) (p : Bool) (G : List ℝ) (k : ℕ)
    (h : k < G.length) :
    (sample A f p G φ).get ⟨k, by rw [sample_length]; exact h⟩ =
      A * (if p then (-1 : ℝ) else 1) *
        Real.sin (2 * Real.pi * (f * 0.01) * G.get ⟨k, h⟩ + φ) := by
  simp only [sample, List.get_eq_getElem, List.getElem_map]

theorem C1_sample_formula_witness :
    (0 : ℕ) < ([(1 : ℝ)]).length ∧
    (sample 2 3 true [1] 5).get ⟨0, by rw [sample_length]; simp⟩ =
      2 * (if true then (-1 : ℝ) else 1) *
        Real.sin (2 * Real.pi * (3 * 0.01) * ([(1 : ℝ)]).get ⟨0, by simp⟩ + 5) :=
  ⟨by simp, C1_sample_formula 2 3 5 true [1] 0 (by simp)⟩

/-- C2: in each frame, the resultant sequence is exactly the pointwise sum of
the two wave sequences at every index of the grid. -/
theorem C2_resultant_is_sum (wa1 wf1 wa2 wf2 : ℝ) (ipw1 ipw2 : Bool) (i k : ℕ)
    (h : k < x.length) :
    (animate wa1 wf1 wa2 wf2 ipw1 ipw2 i).rw.get
        ⟨k, by rw [animate_rw_length]; exact h⟩ =
      (animate wa1 wf1 wa2 wf2 ipw1 ipw2 i).w1.get
          ⟨k, by rw [animate_w1_length]; exact h⟩ +
        (animate wa1 wf1 wa2 wf2 ipw1 ipw2 i).w2.get
          ⟨k, by rw [animate_w2_length]; exact h⟩ := by
  simp only [animate, List.get_eq_getElem, List.getElem_zipWith]

theorem C2_resultant_is_sum_witness :
    (0 : ℕ) < x.length ∧
    (animate 10 140 10 (-140) false false 3).rw.get
        ⟨0, by rw [animate_rw_length, x_length]; norm_num⟩ =
      (animate 10 140 10 (-140) false false 3).w1.get
          ⟨0, by rw [animate_w1_length, x_length]; norm_num⟩ +
        (animate 10 140 10 (-140) false false 3).w2.get
          ⟨0, by rw [animate_w2_length, x_length]; norm_num⟩ :=
  ⟨by rw [x_length]; norm_num,
    C2_resultant_is_sum 10 140 10 (-140) false false 3 0
      (by rw [x_length]; norm_num)⟩

/-- C3: for every frame index `i` in `0..199` (`frames = 200`), the phase
offset applied is `0.17 * i`, and that same offset is used for both waves. -/
theorem C3_phase_offset (wa1 wf1 wa2 wf2 : ℝ) (ipw1 ipw2 : Bool) (i : ℕ)
    (h : i < frames) :
    (animate wa1 wf1 wa2 wf2 ipw1 ipw2 i).w1 =
        sample wa1 wf1 ipw1 x (0.17 * i) ∧
      (animate wa1 wf1 wa2 wf2 ipw1 ipw2 i).w2 =
        sample wa2 wf2 ipw2 x (0.17 * i) :=
  ⟨rfl, rfl⟩

theorem C3_phase_offset_witness :
    7 < frames ∧
    ((animate 10 180 10 180 true false 7).w1 =
        sample 10 180 true x (0.17 * (7 : ℕ)) ∧
      (animate 10 180 10 180 true false 7).w2 =
        sample 10 180 false x (0.17 * (7 : ℕ))) :=
  ⟨by norm_num [frames], C3_phase_offset 10 180 10 180 true false 7 (by norm_num [frames])⟩

/-- C4: setting the polarity-inversion flag negates every output value
exactly: `sample A f false G φ [k] = -(sample A f true G φ [k])`. -/
theorem C4_polarity_negation (A f φ : ℝ) (G : List ℝ) (k : ℕ)
    (h : k < G.length) :
    (sample A f false G φ).get ⟨k, by rw [sample_length]; exact h⟩ =
      -(sample A f true G φ).get ⟨k, by rw [sample_length]; exact h⟩ := by
  simp only [sample, List.get_eq_getElem, List.getElem_map]
  ring_nf
  simp

theorem C4_polarity_negation_witness :
    (0 : ℕ) < ([(1 : ℝ)]).length ∧
    (sample 2 3 false [1] 5).get ⟨0, by rw [sample_length]; simp⟩ =
      -(sample 2 3 true [1] 5).get ⟨0, by rw [sample_length]; simp⟩ :=
  ⟨by simp, C4_polarity_negation 2 3 5 [1] 0 (by simp)⟩

/-- C7: the sampler is periodic in the phase offset with period `2π`:
`sample A f p G (φ + 2π) = sample A f p G φ`. -/
theorem C7_phase_periodic (A f : ℝ) (p : Bool) (G : List ℝ) (φ : ℝ) :
    sample A f p G (φ + 2 * Real.pi) = sample A f p G φ := by
  unfold sample
  congr 1
  funext t
  rw [← add_assoc, Real.sin_add_two_pi]

lemma zipWith_add_map_zero (g : ℝ → ℝ) (G : List ℝ) :
    List.zipWith (fun a b => a + b) (G.map (fun _ => (0 : ℝ))) (G.map g) =
      G.map g := by
  induction G with
  | nil => rfl
  | cons t ts ih => simp only [List.map_cons, List.zipWith_cons_cons, zero_add, ih]

/-- C8: a zero-amplitude wave samples to the all-zero sequence, and
superposing it with any other wave yields exactly the other wave's
sequence. -/
theorem C8_zero_amplitude_identity (f A2 f2 φ : ℝ) (p p2 : Bool)
    (G : List ℝ) :
    sample 0 f p G φ = G.map (fun _ => (0 : ℝ)) ∧
      List.zipWith (fun a b => a + b) (sample 0 f p G φ)
          (sample A2 f2 p2 G φ) =
        sample A2 f2 p2 G φ := by
  have h0 : sample 0 f p G φ = G.map (fun _ => (0 : ℝ)) := by
    unfold sample
    congr 1
    funext t
    ring
  exact ⟨h0, by rw [h0, sample, zipWith_add_map_zero]⟩

/-- C9: the two sequences handed to the superposition panel (`sw1`, `sw2`)
are exactly the sequences computed for wave 1 and wave 2. -/
theorem C9_superposition_panels (wa1 wf1 wa2 wf2 : ℝ) (ipw1 ipw2 : Bool)
    (i : ℕ) :
    (animate wa1 wf1 wa2 wf2 ipw1 ipw2 i).sw1 =
        (animate wa1 wf1 wa2 wf2 ipw1 ipw2 i).w1 ∧
      (animate wa1 wf1 wa2 wf2 ipw1 ipw2 i).sw2 =
        (animate wa1 wf1 wa2 wf2 ipw1 ipw2 i).w2 :=
  ⟨rfl, rfl⟩

/-- C10: the sampler is homogeneous in amplitude:
`sample (c*A) f p G φ [k] = c * sample A f p G φ [k]` for every index. -/
theorem C10_amplitude_homogeneous (c A f φ : ℝ) (p : Bool) (G : List ℝ)
    (k : ℕ) (h : k < G.length) :
    (sample (c * A) f p G φ).get ⟨k, by rw [sample_length]; exact h⟩ =
      c * (sample A f p G φ).get ⟨k, by rw [sample_length]; exact h⟩ := by
  simp only [sample, List.get_eq_getElem, List.getElem_map]
  ring

theorem C10_amplitude_homogeneous_witness :
    (0 : ℕ) < ([(1 : ℝ)]).length ∧
    (sample ((-3) * 2) 140 false [1] 5).get ⟨0, by rw [sample_length]; simp⟩ =
      (-3) * (sample 2 140 false [1] 5).get ⟨0, by rw [sample_length]; simp⟩ :=
  ⟨by simp, C10_amplitude_homogeneous (-3) 2 140 5 false [1] 0 (by simp)⟩

/-- C6: the sample grid is `arange 0.05 4.95 0.001` (start 0.05, step 0.001,
exclusive upper bound 4.95: every grid value is `0.05 + 0.001*k` and is
`< 4.95`), and the sampler's output length equals
`⌊(4.95 - 0.05)/0.001⌋` for every wave parameterization and phase offset. -/
theorem C6_grid_invariant (A f φ : ℝ) (p : Bool) (k : ℕ) (h : k < x.length) :
    x = arange 0.05 4.95 0.001 ∧
      (sample A f p x φ).length = (⌊((4.95 : ℝ) - 0.05) / 0.001⌋).toNat ∧
      x.get ⟨k, h⟩ = 0.05 + 0.001 * k ∧
      x.get ⟨k, h⟩ < 4.95 := by
  refine ⟨rfl, ?_, x_get k h, ?_⟩
  · rw [sample_length, x_length]
    have h49 : ((4.95 : ℝ) - 0.05) / 0.001 = ((4900 : ℕ) : ℝ) := by norm_num
    rw [h49, Int.floor_natCast, Int.toNat_natCast]
  · have hk : k < 4900 := by rw [x_length] at h; exact h
    have hk' : (k : ℝ) < 4900 := by exact_mod_cast hk
    rw [x_get k h]
    nlinarith

theorem C6_grid_invariant_witness :
    (0 : ℕ) < x.length ∧
    (x = arange 0.05 4.95 0.001 ∧
      (sample 10 140 false x 0).length = (⌊((4.95 : ℝ) - 0.05) / 0.001⌋).toNat ∧
      x.get ⟨0, by rw [x_length]; norm_num⟩ = 0.05 + 0.001 * (0 : ℕ) ∧
      x.get ⟨0, by rw [x_length]; norm_num⟩ < 4.95) :=
  ⟨by rw [x_length]; norm_num,
    C6_grid_invariant 10 140 0 false 0 (by rw [x_length]; norm_num)⟩

lemma sin_add_add_sin_neg_add (a φ : ℝ) :
    Real.sin (a + φ) + Real.sin (-a + φ) = 2 * Real.sin φ * Real.cos a := by
  have e : -a + φ = φ - a := by ring
  rw [e, Real.sin_add, Real.sin_sub]
  ring

/-- C5 (as stated) is false: for the two waves of amplitude 10 and
frequencies +140 and -140 sampled with the same grid and phase offset, the
resultant is NOT identically zero for every phase offset. At `φ = π/2` and
grid index 2450 (`t = 2.5`), the resultant equals `-20`. -/
theorem C5_counterexample :
    ¬ (∀ (φ : ℝ) (k : ℕ) (h : k < x.length),
        (List.zipWith (fun a b => a + b) (sample 10 140 false x φ)
            (sample 10 (-140) false x φ)).get
          ⟨k, by rw [List.length_zipWith, sample_length, sample_length,
            Nat.min_self]; exact h⟩ = 0) := by
  intro hall
  have hk : (2450 : ℕ) < x.length := by rw [x_length]; norm_num
  have hval := hall (Real.pi / 2) 2450 hk
  rw [List.get_eq_getElem, List.getElem_zipWith] at hval
  simp only [sample, List.getElem_map, Bool.false_eq_true, if_false,
    mul_one] at hval
  have hx : (x[2450] : ℝ) = 2.5 := by
    have := x_get 2450 hk
    rw [List.get_eq_getElem] at this
    rw [this]; norm_num
  have e1 : (2 : ℝ) * Real.pi * ((140 : ℝ) * (0.01 : ℝ)) * x[2450] + Real.pi / 2
      = (Real.pi / 2 + Real.pi) + ((3 : ℤ) : ℝ) * (2 * Real.pi) := by
    rw [hx]; push_cast; ring
  have e2 : (2 : ℝ) * Real.pi * ((-140 : ℝ) * (0.01 : ℝ)) * x[2450] + Real.pi / 2
      = (Real.pi / 2 + Real.pi) + ((-4 : ℤ) : ℝ) * (2 * Real.pi) := by
    rw [hx]; push_cast; ring
  rw [e1, e2, Real.sin_add_int_mul_two_pi, Real.sin_add_int_mul_two_pi,
    Real.sin_add_pi, Real.sin_pi_div_two] at hval
  norm_num at hval

/-- C5 amended: for the two waves of amplitude 10, frequencies +140 and
-140, same grid and same phase offset `φ`, the resultant at grid index `k`
equals `20 * sin φ * cos(2π·(140·0.01)·t)`; it is identically zero when
`sin φ = 0` (e.g. `φ = 0`), but not for every phase offset. -/
theorem C5_amended (φ : ℝ) (k : ℕ) (h : k < x.length) :
    (List.zipWith (fun a b => a + b) (sample 10 140 false x φ)
        (sample 10 (-140) false x φ)).get
      ⟨k, by rw [List.length_zipWith, sample_length, sample_length,
        Nat.min_self]; exact h⟩ =
      20 * Real.sin φ * Real.cos (2 * Real.pi * (140 * 0.01) *
        x.get ⟨k, h⟩) := by
  simp only [List.get_eq_getElem, List.getElem_zipWith]
  simp only [sample, List.getElem_map, Bool.false_eq_true, if_false, mul_one]
  have e : (2 : ℝ) * Real.pi * ((-140 : ℝ) * (0.01 : ℝ)) * x[k] + φ
      = -((2 : ℝ) * Real.pi * ((140 : ℝ) * (0.01 : ℝ)) * x[k]) + φ := by ring
  rw [e]
  have hs := sin_add_add_sin_neg_add
    ((2 : ℝ) * Real.pi * ((140 : ℝ) * (0.01 : ℝ)) * x[k]) φ
  linarith

theorem C5_amended_witness :
    (0 : ℕ) < x.length ∧
    (List.zipWith (fun a b => a + b) (sample 10 140 false x 0)
        (sample 10 (-140) false x 0)).get
      ⟨0, by rw [List.length_zipWith, sample_length, sample_length,
        Nat.min_self, x_length]; norm_num⟩ =
      20 * Real.sin 0 * Real.cos (2 * Real.pi * (140 * 0.01) *
        x.get ⟨0, by rw [x_length]; norm_num⟩) :=
  ⟨by rw [x_length]; norm_num, C5_amended 0 0 (by rw [x_length]; norm_num)⟩

end SineWave
